import Mathlib

/-!
Verification of the meme-trader paper-trading engine (src/meme_trader.py).

The embedding models the mutable global state of the program
(prices, price histories, EMAs, deviations, cooldown timers, cash,
per-coin balances, invested capital, realized profits, trade log,
running totals) as a record, and each operation of the program
(on_message, execute_trade, the trading loop body, initial_buys,
reset_simulation) as a pure state transformer, translated line by
line from the source.  All monetary quantities are rationals.
-/

namespace MemeTrader

/-- Instrument symbols; the program keys its dictionaries by coin symbol. -/
abbrev Sym := Nat

/-- Trade side, as passed to execute_trade. -/
inductive Side
  | buy
  | sell
deriving DecidableEq, Repr

/-- An entry of the trade_logs list.  The program stores strings; we keep
the data that determines each string. -/
inductive LogEntry
  | trade (symbol : Sym) (side : Side) (amountUsd feeUsd : ℚ)
  | initialBuyFailed (symbol : Sym)
  | resetDone
  | selection
deriving DecidableEq, Repr

/-- Configuration constant INITIAL_BALANCE = 50.0. -/
def INITIAL_BALANCE : ℚ := 50

/-- Configuration constant INITIAL_BUY_USD = 1.0. -/
def INITIAL_BUY_USD : ℚ := 1

/-- Configuration constant TRADE_AMOUNT_USD = 1.0. -/
def TRADE_AMOUNT_USD : ℚ := 1

/-- Configuration constant MAX_ALLOC_PER_COIN = 10.0. -/
def MAX_ALLOC_PER_COIN : ℚ := 10

/-- Configuration constant THRESHOLD_PCT_BUY = 0.005. -/
def THRESHOLD_PCT_BUY : ℚ := 5 / 1000

/-- Configuration constant THRESHOLD_PCT_SELL_BASE = 0.005. -/
def THRESHOLD_PCT_SELL_BASE : ℚ := 5 / 1000

/-- Configuration constant THRESHOLD_PCT_SELL_HIGH = 0.025. -/
def THRESHOLD_PCT_SELL_HIGH : ℚ := 25 / 1000

/-- Configuration constant PROFIT_HIGH_MARK = 0.5. -/
def PROFIT_HIGH_MARK : ℚ := 1 / 2

/-- Configuration constant EMA_PERIOD = 30 (rolling window size W). -/
def EMA_PERIOD : Nat := 30

/-- Configuration constant FEE_PCT = 0.001. -/
def FEE_PCT : ℚ := 1 / 1000

/-- Configuration constant COOLDOWN_SEC = 5. -/
def COOLDOWN_SEC : ℚ := 5

/-- Configuration constant THRESHOLD_TOLERANCE = 0.0001. -/
def THRESHOLD_TOLERANCE : ℚ := 1 / 10000

/-- The global mutable state of the program: the dictionaries
prices, changes, price_histories, emas, last_trade_times, invested,
coin_profits, deviations, the per-coin part of balances, the scalar
balances['USDT'], trade_logs, total_profit and total_trades. -/
structure TraderState where
  prices : Sym → ℚ
  changes : Sym → ℚ
  priceHistories : Sym → List ℚ
  emas : Sym → ℚ
  lastTradeTimes : Sym → ℚ
  usdt : ℚ
  balances : Sym → ℚ
  invested : Sym → ℚ
  coinProfits : Sym → ℚ
  tradeLogs : List LogEntry
  totalProfit : ℚ
  totalTrades : Nat
  deviations : Sym → ℚ

/-- trade_logs.append(log) followed by `if len(trade_logs) > 10: trade_logs.pop(0)`
(the bounded append used at the end of execute_trade). -/
def appendTrimmed (logs : List LogEntry) (e : LogEntry) : List LogEntry :=
  if (logs ++ [e]).length > 10 then (logs ++ [e]).drop 1 else logs ++ [e]

/-- The common tail of a successful execute_trade: total_trades += 1 and the
bounded trade_logs append. -/
def finishTrade (s : TraderState) (e : LogEntry) : TraderState :=
  { s with totalTrades := s.totalTrades + 1,
           tradeLogs := appendTrimmed s.tradeLogs e }

/-- execute_trade(symbol, side, amount_usd) from the source: rejects when the
price is not loaded; a buy rejects when the allocation cap would be exceeded
or USDT is insufficient, else debits cash by amount plus fee, credits the
coin balance with amount/price and adds the amount to invested; a sell
rejects when the coin balance is below amount/price, else credits cash with
amount minus fee, debits the coin balance and books
profit = amount - quantity * (emas[symbol] or price) - fee. -/
def execute_trade (s : TraderState) (symbol : Sym) (side : Side)
    (amount_usd : ℚ) : TraderState :=
  let price := s.prices symbol
  if price = 0 then s
  else
    let quantity := amount_usd / price
    let fee := amount_usd * FEE_PCT
    match side with
    | Side.buy =>
      if s.invested symbol + amount_usd > MAX_ALLOC_PER_COIN ∨
          s.usdt < amount_usd + fee then s
      else
        finishTrade
          { s with usdt := s.usdt - (amount_usd + fee),
                   balances := Function.update s.balances symbol
                     (s.balances symbol + quantity),
                   invested := Function.update s.invested symbol
                     (s.invested symbol + amount_usd) }
          (LogEntry.trade symbol Side.buy amount_usd fee)
    | Side.sell =>
      if s.balances symbol < quantity then s
      else
        let refPrice := if s.emas symbol = 0 then price else s.emas symbol
        let profit := amount_usd - quantity * refPrice - fee
        finishTrade
          { s with usdt := s.usdt + (amount_usd - fee),
                   balances := Function.update s.balances symbol
                     (s.balances symbol - quantity),
                   coinProfits := Function.update s.coinProfits symbol
                     (s.coinProfits symbol + profit),
                   totalProfit := s.totalProfit + profit }
          (LogEntry.trade symbol Side.sell amount_usd fee)

/-- on_message for a tracked symbol: records the price and percent change,
appends the price to the bounded history (popping the oldest element when
the length exceeds EMA_PERIOD), recomputes the EMA as the arithmetic mean
of the history, and recomputes the percent deviation. -/
def on_message (s : TraderState) (symbol : Sym) (price : ℚ) : TraderState :=
  let change := if s.prices symbol > 0
    then (price - s.prices symbol) / s.prices symbol * 100 else 0
  let hist0 := s.priceHistories symbol ++ [price]
  let hist := if hist0.length > EMA_PERIOD then hist0.drop 1 else hist0
  let ema := if hist = [] then price else hist.sum / (hist.length : ℚ)
  let dev := if ema > 0 then (price - ema) / ema * 100 else 0
  { s with prices := Function.update s.prices symbol price,
           changes := Function.update s.changes symbol change,
           priceHistories := Function.update s.priceHistories symbol hist,
           emas := Function.update s.emas symbol ema,
           deviations := Function.update s.deviations symbol dev }

/-- The dynamic sell threshold chosen inside the trading loop:
THRESHOLD_PCT_SELL_HIGH when invested[symbol] > 0 and
coin_profits[symbol] > invested[symbol] * PROFIT_HIGH_MARK, else
THRESHOLD_PCT_SELL_BASE. -/
def sell_threshold (s : TraderState) (symbol : Sym) : ℚ :=
  if s.invested symbol > 0 ∧
      s.coinProfits symbol > s.invested symbol * PROFIT_HIGH_MARK
  then THRESHOLD_PCT_SELL_HIGH else THRESHOLD_PCT_SELL_BASE

/-- last_trade_times[symbol] = t, the stamp written by the trading loop and
by initial_buys right after a call to execute_trade. -/
def stampLastTrade (s : TraderState) (symbol : Sym) (t : ℚ) : TraderState :=
  { s with lastTradeTimes := Function.update s.lastTradeTimes symbol t }

/-- The loop's buy attempt: when the deviation is low enough with spare
allocation and cash at least TRADE_AMOUNT_USD, call execute_trade and stamp
the cooldown timer with the loop's current_time t. -/
def loop_buy_phase (s : TraderState) (t : ℚ) (symbol : Sym) (deviation : ℚ) :
    TraderState :=
  if deviation ≤ -THRESHOLD_PCT_BUY + THRESHOLD_TOLERANCE ∧
      s.invested symbol < MAX_ALLOC_PER_COIN ∧
      s.usdt ≥ TRADE_AMOUNT_USD
  then stampLastTrade (execute_trade s symbol Side.buy TRADE_AMOUNT_USD) symbol t
  else s

/-- The loop's sell attempt: when the deviation reaches the dynamic
threshold and the held quantity exceeds TRADE_AMOUNT_USD / price, call
execute_trade and stamp the cooldown timer with t. -/
def loop_sell_phase (s : TraderState) (t : ℚ) (symbol : Sym)
    (deviation price : ℚ) : TraderState :=
  if deviation ≥ sell_threshold s symbol - THRESHOLD_TOLERANCE ∧
      s.balances symbol > TRADE_AMOUNT_USD / price
  then stampLastTrade (execute_trade s symbol Side.sell TRADE_AMOUNT_USD) symbol t
  else s

/-- The percent deviation the loop recomputes for a coin:
(price - ema) / ema * 100 when the EMA is positive, else 0. -/
def loopDeviation (s : TraderState) (symbol : Sym) : ℚ :=
  if s.emas symbol > 0
  then (s.prices symbol - s.emas symbol) / s.emas symbol * 100 else 0

/-- deviations[symbol] = deviation, the store the loop performs each
iteration. -/
def writeDeviation (s : TraderState) (symbol : Sym) (d : ℚ) : TraderState :=
  { s with deviations := Function.update s.deviations symbol d }

/-- One iteration of the body of trading_loop for a single coin at the
loop's current_time t: skip when price or EMA is zero or within cooldown;
otherwise recompute and store the percent deviation, then run the buy
attempt followed by the sell attempt. -/
def trading_step (s : TraderState) (t : ℚ) (symbol : Sym) : TraderState :=
  if s.prices symbol = 0 ∨ s.emas symbol = 0 then s
  else if t - s.lastTradeTimes symbol < COOLDOWN_SEC then s
  else
    loop_sell_phase
      (loop_buy_phase (writeDeviation s symbol (loopDeviation s symbol)) t symbol
        (loopDeviation s symbol))
      t symbol (loopDeviation s symbol) (s.prices symbol)

/-- One full pass of trading_loop over the coin list at time t. -/
def trading_tick (coins : List Sym) (s : TraderState) (t : ℚ) : TraderState :=
  coins.foldl (fun st sym => trading_step st t sym) s

/-- Per-coin body of initial_buys: buy INITIAL_BUY_USD and stamp the
cooldown timer when the price has loaded and USDT suffices, else append a
failure message to trade_logs (the source appends here without trimming). -/
def initial_buy_one (s : TraderState) (t : ℚ) (symbol : Sym) : TraderState :=
  if s.prices symbol > 0 ∧ s.usdt ≥ INITIAL_BUY_USD then
    stampLastTrade (execute_trade s symbol Side.buy INITIAL_BUY_USD) symbol t
  else
    { s with tradeLogs := s.tradeLogs ++ [LogEntry.initialBuyFailed symbol] }

/-- initial_buys over the coin list; tf gives the time.time() observed for
each coin's stamp. -/
def initial_buys (coins : List Sym) (s : TraderState) (tf : Sym → ℚ) : TraderState :=
  coins.foldl (fun st sym => initial_buy_one st (tf sym) sym) s

/-- Folds Function.update (· , 0) over a coin list: the per-coin zeroing
loop of reset_simulation. -/
def zeroOnCoins (f : Sym → ℚ) (coins : List Sym) : Sym → ℚ :=
  coins.foldl (fun g sym => Function.update g sym 0) f

/-- The zeroing part of reset_simulation, before initial_buys re-runs:
balances is replaced by a dict holding only USDT = INITIAL_BALANCE, every
tracked coin's balance, invested, profit and cooldown stamp are zeroed,
the running totals are zeroed and trade_logs is cleared. -/
def reset_zero (coins : List Sym) (s : TraderState) : TraderState :=
  { s with usdt := INITIAL_BALANCE,
           balances := fun _ => 0,
           invested := zeroOnCoins s.invested coins,
           coinProfits := zeroOnCoins s.coinProfits coins,
           lastTradeTimes := zeroOnCoins s.lastTradeTimes coins,
           totalProfit := 0,
           totalTrades := 0,
           tradeLogs := [] }

/-- reset_simulation: zero everything, re-run initial_buys, then append the
completion message (the source appends it without trimming). -/
def reset_simulation (coins : List Sym) (s : TraderState) (tf : Sym → ℚ) :
    TraderState :=
  let s2 := initial_buys coins (reset_zero coins s) tf
  { s2 with tradeLogs := s2.tradeLogs ++ [LogEntry.resetDone] }

/-- A feed delivery sequence: on_message applied to each (symbol, price)
pair in order. -/
def applyFeed (s : TraderState) (msgs : List (Sym × ℚ)) : TraderState :=
  msgs.foldl (fun st m => on_message st m.1 m.2) s

/-- A run of single-instrument trading-loop iterations at the given times. -/
def runSteps (s : TraderState) (sym : Sym) (ts : List ℚ) : TraderState :=
  ts.foldl (fun st t => trading_step st t sym) s

/-- The state right after the data-initialization section: zero prices and
histories, USDT = INITIAL_BALANCE, zero ledger entries, and the coin
selection message already in trade_logs. -/
def initState : TraderState :=
  { prices := fun _ => 0, changes := fun _ => 0,
    priceHistories := fun _ => [],
    emas := fun _ => 0, lastTradeTimes := fun _ => 0,
    usdt := INITIAL_BALANCE,
    balances := fun _ => 0, invested := fun _ => 0,
    coinProfits := fun _ => 0,
    tradeLogs := [LogEntry.selection],
    totalProfit := 0, totalTrades := 0,
    deviations := fun _ => 0 }

/-- One atomic operation of the running program, as interleaved by its
threads: a feed tick with a positive price, one trading-loop pass, an
initial_buys run, or a reset. -/
inductive Step (coins : List Sym) : TraderState → TraderState → Prop
  | tick (s : TraderState) (sym : Sym) (p : ℚ) (hp : 0 < p) :
      Step coins s (on_message s sym p)
  | loop (s : TraderState) (t : ℚ) :
      Step coins s (trading_tick coins s t)
  | funding (s : TraderState) (tf : Sym → ℚ) :
      Step coins s (initial_buys coins s tf)
  | reset (s : TraderState) (tf : Sym → ℚ) :
      Step coins s (reset_simulation coins s tf)

/-- States the program can reach from its initial state. -/
def Reachable (coins : List Sym) (s : TraderState) : Prop :=
  Relation.ReflTransGen (Step coins) initState s

/-- Ledger invariant maintained by every operation: prices and invested
capital are nonnegative, and a coin with zero invested capital has zero
realized profit and zero balance. -/
def LedgerInv (s : TraderState) : Prop :=
  ∀ sym, 0 ≤ s.prices sym ∧ 0 ≤ s.invested sym ∧
    (s.invested sym = 0 → s.coinProfits sym = 0 ∧ s.balances sym = 0)

/-- The sell-threshold selection rule as the specification words it:
the high threshold exactly when realized profit exceeds invested capital
times PROFIT_HIGH_MARK. -/
def sell_threshold_spec (s : TraderState) (symbol : Sym) : ℚ :=
  if s.coinProfits symbol > s.invested symbol * PROFIT_HIGH_MARK
  then THRESHOLD_PCT_SELL_HIGH else THRESHOLD_PCT_SELL_BASE

/-- A concrete state with every per-coin map constant, used to evaluate the
operations at explicit inputs. -/
def constState (price ema usdtV investedV balanceV profitsV lastT : ℚ)
    (hist : List ℚ) (logs : List LogEntry) : TraderState :=
  { prices := fun _ => price, changes := fun _ => 0,
    priceHistories := fun _ => hist, emas := fun _ => ema,
    lastTradeTimes := fun _ => lastT, usdt := usdtV,
    balances := fun _ => balanceV, invested := fun _ => investedV,
    coinProfits := fun _ => profitsV, tradeLogs := logs,
    totalProfit := 0, totalTrades := 0, deviations := fun _ => 0 }

/-- State with a loaded price of 100 and ample cash. -/
def buyState : TraderState := constState 100 100 50 0 0 0 0 [100] []

/-- State holding two units of a coin priced at 100, cash 50. -/
def sellState : TraderState := constState 100 100 50 5 2 0 0 [100] []

/-- State whose price sits 10 percent below the EMA with cash exactly 1:
the loop's buy guard (cash at least TRADE_AMOUNT_USD) passes while
execute_trade rejects (cash below amount plus fee). -/
def rejectedBuyState : TraderState := constState 90 100 1 0 0 0 0 [] []

/-- State whose price sits 10 percent below the EMA with ample cash, so the
loop executes a buy. -/
def loopBuyState : TraderState := constState 90 100 50 0 0 0 0 [] []

/-- State holding a one-element price history 99, about to receive price 101,
which makes the new EMA exactly 100. -/
def devState : TraderState := constState 0 0 0 0 0 0 0 [99] []

/-- State with a negative EMA, reachable only with negative feed prices but
usable to evaluate the loop's else-branch deviation. -/
def negEmaState : TraderState := constState 90 (-5) 50 0 0 0 0 [] []

/-- State with an already-full ten-entry trade log and no loaded price, so
initial_buys takes its failure branch. -/
def fullLogNoPriceState : TraderState :=
  constState 0 0 50 0 0 0 0 [] (List.replicate 10 LogEntry.selection)

/-- State with an already-full ten-entry trade log and a loaded price, so a
buy succeeds and the bounded append evicts the oldest entry. -/
def fullLogBuyState : TraderState :=
  constState 100 100 50 0 0 0 0 [100] (List.replicate 10 LogEntry.selection)

/-- State whose price history is exactly at the window capacity. -/
def fullHistState : TraderState :=
  constState 100 100 50 0 0 0 0 (List.replicate 30 100) []

/-- A populated mid-run state used to evaluate reset_simulation. -/
def preResetState : TraderState :=
  constState 100 100 20 5 3 2 7 [100, 102] [LogEntry.selection]

end MemeTrader

namespace MemeTrader

/-! ## Helper lemmas -/

theorem execute_trade_tracker (s : TraderState) (symbol : Sym) (side : Side)
    (a : ℚ) :
    (execute_trade s symbol side a).prices = s.prices ∧
    (execute_trade s symbol side a).priceHistories = s.priceHistories ∧
    (execute_trade s symbol side a).emas = s.emas ∧
    (execute_trade s symbol side a).deviations = s.deviations ∧
    (execute_trade s symbol side a).lastTradeTimes = s.lastTradeTimes := by
  unfold execute_trade finishTrade
  cases side <;> dsimp only <;> split <;>
    first
      | exact ⟨rfl, rfl, rfl, rfl, rfl⟩
      | (split <;> exact ⟨rfl, rfl, rfl, rfl, rfl⟩)

theorem execute_trade_invested_mono (s : TraderState) (symbol : Sym)
    (side : Side) (a : ℚ) (y : Sym) (ha : 0 ≤ a) :
    s.invested y ≤ (execute_trade s symbol side a).invested y := by
  unfold execute_trade finishTrade
  cases side <;> dsimp only <;> split
  · exact le_refl _
  · split
    · exact le_refl _
    · by_cases hy : y = symbol
      · subst hy
        simp only [Function.update_same]
        linarith
      · simp only [Function.update_noteq hy]
        exact le_refl _
  · exact le_refl _
  · split
    · exact le_refl _
    · exact le_refl _

theorem foldl_invested_mono (f : TraderState → Sym → TraderState)
    (hf : ∀ st sym y, st.invested y ≤ (f st sym).invested y) :
    ∀ (l : List Sym) (s : TraderState) (y : Sym),
      s.invested y ≤ (l.foldl f s).invested y := by
  intro l
  induction l with
  | nil => intro s y; exact le_refl _
  | cons c cs ih =>
      intro s y
      exact le_trans (hf s c y) (ih (f s c) y)

theorem loop_buy_phase_invested_mono (s : TraderState) (t : ℚ) (symbol y : Sym)
    (d : ℚ) : s.invested y ≤ (loop_buy_phase s t symbol d).invested y := by
  unfold loop_buy_phase stampLastTrade
  split
  · exact execute_trade_invested_mono s symbol Side.buy TRADE_AMOUNT_USD y
      (by norm_num [TRADE_AMOUNT_USD])
  · exact le_refl _

theorem loop_sell_phase_invested_mono (s : TraderState) (t : ℚ) (symbol y : Sym)
    (d p : ℚ) : s.invested y ≤ (loop_sell_phase s t symbol d p).invested y := by
  unfold loop_sell_phase stampLastTrade
  split
  · exact execute_trade_invested_mono s symbol Side.sell TRADE_AMOUNT_USD y
      (by norm_num [TRADE_AMOUNT_USD])
  · exact le_refl _

theorem trading_step_eq_of_skip (s : TraderState) (t : ℚ) (sym : Sym)
    (h : s.prices sym = 0 ∨ s.emas sym = 0) :
    trading_step s t sym = s := by
  unfold trading_step
  rw [if_pos h]

theorem trading_step_eq_of_cooldown (s : TraderState) (t : ℚ) (sym : Sym)
    (h : t - s.lastTradeTimes sym < COOLDOWN_SEC) :
    trading_step s t sym = s := by
  unfold trading_step
  by_cases h1 : s.prices sym = 0 ∨ s.emas sym = 0
  · rw [if_pos h1]
  · rw [if_neg h1, if_pos h]

theorem trading_step_body (s : TraderState) (t : ℚ) (sym : Sym)
    (h1 : ¬(s.prices sym = 0 ∨ s.emas sym = 0))
    (h2 : ¬(t - s.lastTradeTimes sym < COOLDOWN_SEC)) :
    trading_step s t sym
      = loop_sell_phase
          (loop_buy_phase (writeDeviation s sym (loopDeviation s sym)) t sym
            (loopDeviation s sym))
          t sym (loopDeviation s sym) (s.prices sym) := by
  unfold trading_step
  rw [if_neg h1, if_neg h2]

theorem trading_step_invested_mono (s : TraderState) (t : ℚ) (symbol y : Sym) :
    s.invested y ≤ (trading_step s t symbol).invested y := by
  by_cases h1 : s.prices symbol = 0 ∨ s.emas symbol = 0
  · rw [trading_step_eq_of_skip s t symbol h1]
  · by_cases h2 : t - s.lastTradeTimes symbol < COOLDOWN_SEC
    · rw [trading_step_eq_of_cooldown s t symbol h2]
    · rw [trading_step_body s t symbol h1 h2]
      refine le_trans ?_ (loop_sell_phase_invested_mono _ t symbol y _ _)
      exact loop_buy_phase_invested_mono _ t symbol y _

theorem initial_buy_one_invested_mono (s : TraderState) (t : ℚ)
    (symbol y : Sym) :
    s.invested y ≤ (initial_buy_one s t symbol).invested y := by
  unfold initial_buy_one stampLastTrade
  split
  · exact execute_trade_invested_mono _ symbol Side.buy INITIAL_BUY_USD y
      (by norm_num [INITIAL_BUY_USD])
  · exact le_refl _

theorem on_message_hist (s : TraderState) (sym : Sym) (p : ℚ) :
    (on_message s sym p).priceHistories sym
      = if (s.priceHistories sym ++ [p]).length > EMA_PERIOD
        then (s.priceHistories sym ++ [p]).drop 1
        else s.priceHistories sym ++ [p] := by
  unfold on_message
  dsimp only
  rw [Function.update_same]

theorem on_message_mean (s : TraderState) (sym : Sym) (p : ℚ) :
    (on_message s sym p).emas sym
      = ((on_message s sym p).priceHistories sym).sum /
        (((on_message s sym p).priceHistories sym).length : ℚ) := by
  unfold on_message
  dsimp only
  rw [Function.update_same, Function.update_same]
  have hne : (if (s.priceHistories sym ++ [p]).length > EMA_PERIOD
      then (s.priceHistories sym ++ [p]).drop 1
      else s.priceHistories sym ++ [p]) ≠ [] := by
    split
    · rename_i hlen
      have hd : ((s.priceHistories sym ++ [p]).drop 1).length
          = (s.priceHistories sym ++ [p]).length - 1 := List.length_drop 1 _
      intro hnil
      rw [hnil] at hd
      simp only [List.length_nil, List.length_append, List.length_singleton] at hd
      simp only [EMA_PERIOD, List.length_append, List.length_singleton] at hlen
      omega
    · simp
  rw [if_neg hne]

theorem on_message_frame (s : TraderState) (sym : Sym) (p : ℚ) (y : Sym)
    (hy : y ≠ sym) :
    (on_message s sym p).prices y = s.prices y ∧
    (on_message s sym p).priceHistories y = s.priceHistories y ∧
    (on_message s sym p).emas y = s.emas y ∧
    (on_message s sym p).deviations y = s.deviations y := by
  unfold on_message
  dsimp only
  exact ⟨Function.update_noteq hy _ _, Function.update_noteq hy _ _,
    Function.update_noteq hy _ _, Function.update_noteq hy _ _⟩

theorem on_message_hist_bound (s : TraderState) (sym : Sym) (p : ℚ)
    (h : ∀ y, (s.priceHistories y).length ≤ EMA_PERIOD) (y : Sym) :
    ((on_message s sym p).priceHistories y).length ≤ EMA_PERIOD := by
  by_cases hy : y = sym
  · subst hy
    rw [on_message_hist]
    split
    · rename_i hlen
      rw [List.length_drop]
      have hb := h y
      simp only [EMA_PERIOD, List.length_append, List.length_singleton] at *
      omega
    · rename_i hlen
      push_neg at hlen
      exact hlen
  · rw [(on_message_frame s sym p y hy).2.1]
    exact h y

theorem applyFeed_hist_bound :
    ∀ (msgs : List (Sym × ℚ)) (s : TraderState),
      (∀ y, (s.priceHistories y).length ≤ EMA_PERIOD) →
      ∀ y, ((applyFeed s msgs).priceHistories y).length ≤ EMA_PERIOD := by
  intro msgs
  induction msgs with
  | nil => intro s h y; exact h y
  | cons m ms ih =>
      intro s h y
      have hstep : applyFeed s (m :: ms) = applyFeed (on_message s m.1 m.2) ms := rfl
      rw [hstep]
      exact ih _ (fun z => on_message_hist_bound s m.1 m.2 h z) y

/-! ## C4 -/

/-- C4: after any feed sequence that delivers at least one sample to an
instrument, its stored reference value equals the arithmetic mean of the
current contents of its price history. -/
theorem reference_is_mean (s : TraderState) (sym : Sym)
    (msgs : List (Sym × ℚ)) (h : sym ∈ msgs.map Prod.fst) :
    (applyFeed s msgs).emas sym
      = ((applyFeed s msgs).priceHistories sym).sum /
        (((applyFeed s msgs).priceHistories sym).length : ℚ) := by
  induction msgs using List.reverseRecOn with
  | nil => cases h
  | append_singleton qs m ih =>
      have hstep : applyFeed s (qs ++ [m]) = on_message (applyFeed s qs) m.1 m.2 := by
        unfold applyFeed
        rw [List.foldl_append]
        rfl
      rw [hstep]
      by_cases hsym : sym = m.1
      · subst hsym
        exact on_message_mean (applyFeed s qs) m.1 m.2
      · have hmem : sym ∈ qs.map Prod.fst := by
          rw [List.map_append] at h
          rcases List.mem_append.1 h with h1 | h2
          · exact h1
          · exfalso
            simp only [List.map_cons, List.map_nil, List.mem_singleton] at h2
            exact hsym h2
        have hfr := on_message_frame (applyFeed s qs) m.1 m.2 sym hsym
        rw [hfr.2.1, hfr.2.2.1]
        exact ih hmem

/-- Witness for C4: one sample of 100 delivered to instrument 0. -/
theorem reference_is_mean_witness :
    (0 : Sym) ∈ ([((0 : Sym), (100 : ℚ))].map Prod.fst) ∧
    (applyFeed initState [(0, 100)]).emas 0
      = ((applyFeed initState [(0, 100)]).priceHistories 0).sum /
        (((applyFeed initState [(0, 100)]).priceHistories 0).length : ℚ) :=
  ⟨by simp, reference_is_mean initState 0 [(0, 100)] (by simp)⟩

/-! ## C5 -/

/-- C5: starting from histories within the window bound, every feed
sequence keeps every instrument's history within EMA_PERIOD entries; a
sample arriving with the history exactly at capacity evicts the oldest
entry (FIFO), and below capacity it is appended with nothing evicted. -/
theorem history_bounded_fifo (s : TraderState) (sym : Sym) (p : ℚ)
    (h : ∀ y, (s.priceHistories y).length ≤ EMA_PERIOD) :
    (∀ (msgs : List (Sym × ℚ)) (y : Sym),
      ((applyFeed s msgs).priceHistories y).length ≤ EMA_PERIOD) ∧
    ((s.priceHistories sym).length = EMA_PERIOD →
      (on_message s sym p).priceHistories sym
        = (s.priceHistories sym).tail ++ [p]) ∧
    ((s.priceHistories sym).length < EMA_PERIOD →
      (on_message s sym p).priceHistories sym = s.priceHistories sym ++ [p]) := by
  refine ⟨fun msgs y => applyFeed_hist_bound msgs s h y, ?_, ?_⟩
  · intro hlen
    have hgt : (s.priceHistories sym ++ [p]).length > EMA_PERIOD := by
      simp only [List.length_append, List.length_singleton]
      omega
    have hle : 1 ≤ (s.priceHistories sym).length := by
      simp only [EMA_PERIOD] at hlen
      omega
    rw [on_message_hist, if_pos hgt, List.drop_append_of_le_length hle,
      List.drop_one]
  · intro hlen
    have hng : ¬(s.priceHistories sym ++ [p]).length > EMA_PERIOD := by
      simp only [List.length_append, List.length_singleton]
      omega
    rw [on_message_hist, if_neg hng]

/-- Witness for C5: a full thirty-entry history receiving one sample, and a
one-entry history receiving one sample. -/
theorem history_bounded_fifo_witness :
    (∀ y, (fullHistState.priceHistories y).length ≤ EMA_PERIOD) ∧
    ((applyFeed fullHistState [(0, 101)]).priceHistories 0).length ≤ EMA_PERIOD ∧
    (on_message fullHistState 0 101).priceHistories 0
      = (fullHistState.priceHistories 0).tail ++ [101] ∧
    (fullHistState.priceHistories 0).length = EMA_PERIOD ∧
    (on_message devState 0 101).priceHistories 0
      = devState.priceHistories 0 ++ [101] := by
  have h30 : ∀ y, (fullHistState.priceHistories y).length ≤ EMA_PERIOD := by
    intro y
    norm_num [fullHistState, constState, EMA_PERIOD]
  have h1 : ∀ y, (devState.priceHistories y).length ≤ EMA_PERIOD := by
    intro y
    norm_num [devState, constState, EMA_PERIOD]
  refine ⟨h30, (history_bounded_fifo fullHistState 0 101 h30).1 [(0, 101)] 0,
    (history_bounded_fifo fullHistState 0 101 h30).2.1 ?_, ?_,
    (history_bounded_fifo devState 0 101 h1).2.2 ?_⟩
  · norm_num [fullHistState, constState, EMA_PERIOD]
  · norm_num [fullHistState, constState, EMA_PERIOD]
  · norm_num [devState, constState, EMA_PERIOD]

/-! ## C1 -/

/-- C1: with a known positive last price, a buy of amount a succeeds exactly
when cash covers a plus the fee and invested capital plus a stays within the
per-coin cap; on success cash drops by a times one plus the fee rate, the
held quantity grows by a divided by the price, invested capital grows by a
and the trade counter advances; otherwise the state is unchanged. -/
theorem buy_execution (s : TraderState) (symbol : Sym) (a : ℚ)
    (hp : 0 < s.prices symbol) :
    (a + a * FEE_PCT ≤ s.usdt ∧ s.invested symbol + a ≤ MAX_ALLOC_PER_COIN →
      (execute_trade s symbol Side.buy a).usdt = s.usdt - a * (1 + FEE_PCT) ∧
      (execute_trade s symbol Side.buy a).balances symbol
        = s.balances symbol + a / s.prices symbol ∧
      (execute_trade s symbol Side.buy a).invested symbol
        = s.invested symbol + a ∧
      (execute_trade s symbol Side.buy a).totalTrades = s.totalTrades + 1) ∧
    (¬(a + a * FEE_PCT ≤ s.usdt ∧ s.invested symbol + a ≤ MAX_ALLOC_PER_COIN) →
      execute_trade s symbol Side.buy a = s) := by
  have hne : s.prices symbol ≠ 0 := ne_of_gt hp
  unfold execute_trade finishTrade
  dsimp only
  rw [if_neg hne]
  constructor
  · rintro ⟨h1, h2⟩
    have hcond : ¬(s.invested symbol + a > MAX_ALLOC_PER_COIN ∨
        s.usdt < a + a * FEE_PCT) := by
      push_neg
      exact ⟨h2, h1⟩
    rw [if_neg hcond]
    refine ⟨?_, ?_, ?_, rfl⟩
    · dsimp only
      ring
    · dsimp only
      rw [Function.update_same]
    · dsimp only
      rw [Function.update_same]
  · intro h
    have hcond : s.invested symbol + a > MAX_ALLOC_PER_COIN ∨
        s.usdt < a + a * FEE_PCT := by
      by_contra hc
      push_neg at hc
      exact h ⟨hc.2, hc.1⟩
    rw [if_pos hcond]

/-- Witness for C1 at a concrete state: price 100, cash 50, buy of 1. -/
theorem buy_execution_witness :
    (0 < buyState.prices 0) ∧
    ((execute_trade buyState 0 Side.buy 1).usdt
        = buyState.usdt - 1 * (1 + FEE_PCT) ∧
      (execute_trade buyState 0 Side.buy 1).balances 0
        = buyState.balances 0 + 1 / buyState.prices 0 ∧
      (execute_trade buyState 0 Side.buy 1).invested 0
        = buyState.invested 0 + 1 ∧
      (execute_trade buyState 0 Side.buy 1).totalTrades
        = buyState.totalTrades + 1) :=
  ⟨by norm_num [buyState, constState],
    (buy_execution buyState 0 1 (by norm_num [buyState, constState])).1
      (by norm_num [buyState, constState, FEE_PCT, MAX_ALLOC_PER_COIN])⟩

/-! ## C2 -/

/-- C2: with a known positive last price, a sell of amount a is rejected
exactly when the held quantity is below a divided by the price, and the
rejection changes nothing; when accepted, cash grows by a minus the fee, the
held quantity drops by a divided by the price, and realized profit grows by
a minus quantity times the reference price minus the fee, the reference
price falling back to the last price when the EMA is zero. -/
theorem sell_execution (s : TraderState) (symbol : Sym) (a : ℚ)
    (hp : 0 < s.prices symbol) :
    (s.balances symbol < a / s.prices symbol →
      execute_trade s symbol Side.sell a = s) ∧
    (¬(s.balances symbol < a / s.prices symbol) →
      (execute_trade s symbol Side.sell a).usdt = s.usdt + (a - a * FEE_PCT) ∧
      (execute_trade s symbol Side.sell a).balances symbol
        = s.balances symbol - a / s.prices symbol ∧
      (execute_trade s symbol Side.sell a).coinProfits symbol
        = s.coinProfits symbol +
          (a - (a / s.prices symbol) *
              (if s.emas symbol = 0 then s.prices symbol else s.emas symbol)
            - a * FEE_PCT) ∧
      (execute_trade s symbol Side.sell a).totalTrades = s.totalTrades + 1) := by
  have hne : s.prices symbol ≠ 0 := ne_of_gt hp
  unfold execute_trade finishTrade
  dsimp only
  rw [if_neg hne]
  constructor
  · intro h
    rw [if_pos h]
  · intro h
    rw [if_neg h]
    refine ⟨rfl, ?_, ?_, rfl⟩
    · dsimp only
      rw [Function.update_same]
    · dsimp only
      rw [Function.update_same]

/-- Witness for C2 at a concrete state: price 100, held quantity 2,
sell of 1. -/
theorem sell_execution_witness :
    (0 < sellState.prices 0) ∧
    ¬(sellState.balances 0 < 1 / sellState.prices 0) ∧
    ((execute_trade sellState 0 Side.sell 1).usdt
        = sellState.usdt + (1 - 1 * FEE_PCT) ∧
      (execute_trade sellState 0 Side.sell 1).balances 0
        = sellState.balances 0 - 1 / sellState.prices 0 ∧
      (execute_trade sellState 0 Side.sell 1).coinProfits 0
        = sellState.coinProfits 0 +
          (1 - (1 / sellState.prices 0) *
              (if sellState.emas 0 = 0 then sellState.prices 0 else sellState.emas 0)
            - 1 * FEE_PCT) ∧
      (execute_trade sellState 0 Side.sell 1).totalTrades
        = sellState.totalTrades + 1) :=
  ⟨by norm_num [sellState, constState],
    by norm_num [sellState, constState],
    (sell_execution sellState 0 1 (by norm_num [sellState, constState])).2
      (by norm_num [sellState, constState])⟩

theorem zeroOnCoins_apply :
    ∀ (coins : List Sym) (f : Sym → ℚ) (sym : Sym),
      zeroOnCoins f coins sym = if sym ∈ coins then 0 else f sym := by
  intro coins
  induction coins with
  | nil => intro f sym; simp [zeroOnCoins]
  | cons c cs ih =>
      intro f sym
      have hstep : zeroOnCoins f (c :: cs) = zeroOnCoins (Function.update f c 0) cs := rfl
      rw [hstep, ih]
      by_cases hmem : sym ∈ cs
      · simp [hmem]
      · by_cases hc : sym = c
        · subst hc
          simp [hmem, Function.update_same]
        · simp [hmem, hc, Function.update_noteq hc]

theorem initial_buy_one_tracker (s : TraderState) (t : ℚ) (symbol : Sym) :
    (initial_buy_one s t symbol).prices = s.prices ∧
    (initial_buy_one s t symbol).priceHistories = s.priceHistories ∧
    (initial_buy_one s t symbol).emas = s.emas ∧
    (initial_buy_one s t symbol).deviations = s.deviations := by
  unfold initial_buy_one stampLastTrade
  split
  · dsimp only
    have h := execute_trade_tracker s symbol Side.buy INITIAL_BUY_USD
    exact ⟨h.1, h.2.1, h.2.2.1, h.2.2.2.1⟩
  · exact ⟨rfl, rfl, rfl, rfl⟩

theorem initial_buys_tracker :
    ∀ (coins : List Sym) (s : TraderState) (tf : Sym → ℚ),
      (initial_buys coins s tf).prices = s.prices ∧
      (initial_buys coins s tf).priceHistories = s.priceHistories ∧
      (initial_buys coins s tf).emas = s.emas ∧
      (initial_buys coins s tf).deviations = s.deviations := by
  intro coins
  induction coins with
  | nil => intro s tf; exact ⟨rfl, rfl, rfl, rfl⟩
  | cons c cs ih =>
      intro s tf
      have hstep : initial_buys (c :: cs) s tf
          = initial_buys cs (initial_buy_one s (tf c) c) tf := rfl
      rw [hstep]
      have h1 := initial_buy_one_tracker s (tf c) c
      have h2 := ih (initial_buy_one s (tf c) c) tf
      exact ⟨h2.1.trans h1.1, h2.2.1.trans h1.2.1, h2.2.2.1.trans h1.2.2.1,
        h2.2.2.2.trans h1.2.2.2⟩

/-! ## C7 -/

/-- C7: the zeroing phase of reset restores cash to INITIAL_BALANCE, zeroes
every coin balance, and zeroes invested capital, realized profit and the
cooldown stamp of every tracked coin, zeroes the running totals and clears
the trade log, all before initial funding re-runs; the whole reset leaves
every instrument's price history, reference value, deviation and last price
unchanged. -/
theorem reset_effects (coins : List Sym) (s : TraderState) (tf : Sym → ℚ) :
    (reset_zero coins s).usdt = INITIAL_BALANCE ∧
    (∀ sym, (reset_zero coins s).balances sym = 0) ∧
    (∀ sym ∈ coins, (reset_zero coins s).invested sym = 0 ∧
      (reset_zero coins s).coinProfits sym = 0 ∧
      (reset_zero coins s).lastTradeTimes sym = 0) ∧
    (reset_zero coins s).totalProfit = 0 ∧
    (reset_zero coins s).totalTrades = 0 ∧
    (reset_zero coins s).tradeLogs = [] ∧
    (∀ sym,
      (reset_simulation coins s tf).priceHistories sym = s.priceHistories sym ∧
      (reset_simulation coins s tf).emas sym = s.emas sym ∧
      (reset_simulation coins s tf).deviations sym = s.deviations sym ∧
      (reset_simulation coins s tf).prices sym = s.prices sym) := by
  refine ⟨rfl, fun sym => rfl, ?_, rfl, rfl, rfl, ?_⟩
  · intro sym hmem
    refine ⟨?_, ?_, ?_⟩ <;>
      · show zeroOnCoins _ coins sym = 0
        rw [zeroOnCoins_apply, if_pos hmem]
  · intro sym
    have h := initial_buys_tracker coins (reset_zero coins s) tf
    unfold reset_simulation
    dsimp only
    exact ⟨congrFun h.2.1 sym, congrFun h.2.2.1 sym, congrFun h.2.2.2 sym,
      congrFun h.1 sym⟩

/-- Witness for C7 at a populated concrete state with one tracked coin. -/
theorem reset_effects_witness :
    (reset_zero [0] preResetState).usdt = INITIAL_BALANCE ∧
    (reset_zero [0] preResetState).balances 0 = 0 ∧
    (reset_zero [0] preResetState).invested 0 = 0 ∧
    (reset_zero [0] preResetState).coinProfits 0 = 0 ∧
    (reset_zero [0] preResetState).lastTradeTimes 0 = 0 ∧
    (reset_zero [0] preResetState).tradeLogs = [] ∧
    (reset_simulation [0] preResetState (fun _ => 3)).priceHistories 0
      = preResetState.priceHistories 0 ∧
    (reset_simulation [0] preResetState (fun _ => 3)).emas 0
      = preResetState.emas 0 := by
  have h := reset_effects [0] preResetState (fun _ => 3)
  have hm := h.2.2.1 0 (by simp)
  exact ⟨h.1, h.2.1 0, hm.1, hm.2.1, hm.2.2, h.2.2.2.2.2.1,
    (h.2.2.2.2.2.2 0).1, (h.2.2.2.2.2.2 0).2.1⟩

theorem sell_threshold_lb (s : TraderState) (symbol : Sym) :
    THRESHOLD_PCT_SELL_BASE ≤ sell_threshold s symbol := by
  unfold sell_threshold
  split
  · norm_num [THRESHOLD_PCT_SELL_BASE, THRESHOLD_PCT_SELL_HIGH]
  · exact le_refl _

theorem loop_phase_zero_dev (u : TraderState) (t : ℚ) (symbol : Sym) (p : ℚ) :
    loop_sell_phase (loop_buy_phase u t symbol 0) t symbol 0 p = u := by
  have h1 : loop_buy_phase u t symbol 0 = u := by
    unfold loop_buy_phase
    rw [if_neg]
    rintro ⟨hc, -⟩
    norm_num [THRESHOLD_PCT_BUY, THRESHOLD_TOLERANCE] at hc
  rw [h1]
  unfold loop_sell_phase
  rw [if_neg]
  rintro ⟨hc, -⟩
  have hpos := sell_threshold_lb u symbol
  norm_num [THRESHOLD_PCT_SELL_BASE, THRESHOLD_TOLERANCE] at hc hpos
  linarith

/-! ## C8 -/

/-- C8 counterexample: after history 99 receives the sample 101, the EMA is
100 (positive) and the stored deviation is 1, not the ratio 1/100: the
program stores the deviation as a percentage, one hundred times the
claimed value. -/
theorem deviation_not_ratio :
    0 < (on_message devState 0 101).emas 0 ∧
    (on_message devState 0 101).deviations 0
      ≠ ((on_message devState 0 101).prices 0 - (on_message devState 0 101).emas 0)
        / (on_message devState 0 101).emas 0 := by
  have hne : ((99 : ℚ) :: [101]) ≠ [] := List.cons_ne_nil _ _
  constructor
  · norm_num [on_message, devState, constState, Function.update_same, EMA_PERIOD,
      if_neg hne]
  · norm_num [on_message, devState, constState, Function.update_same, EMA_PERIOD,
      if_neg hne]

/-- C8 amended: the stored deviation equals
(lastPrice - referenceValue) / referenceValue x 100 (a percentage) whenever
the reference value is positive, and is the sentinel 0 otherwise; the
decision loop skips an instrument whose reference value is zero, and
executes no trade when the reference value is negative. -/
theorem deviation_percent (s : TraderState) (sym : Sym) (p t : ℚ) :
    ((on_message s sym p).deviations sym
      = if 0 < (on_message s sym p).emas sym
        then ((on_message s sym p).prices sym - (on_message s sym p).emas sym)
          / (on_message s sym p).emas sym * 100
        else 0) ∧
    (s.emas sym = 0 → trading_step s t sym = s) ∧
    (s.emas sym < 0 → (trading_step s t sym).totalTrades = s.totalTrades) := by
  refine ⟨?_, ?_, ?_⟩
  · unfold on_message
    dsimp only
    rw [Function.update_same, Function.update_same, Function.update_same]
  · intro h
    exact trading_step_eq_of_skip s t sym (Or.inr h)
  · intro h
    have hd : loopDeviation s sym = 0 := by
      unfold loopDeviation
      rw [if_neg (not_lt.2 (le_of_lt h))]
    by_cases h1 : s.prices sym = 0 ∨ s.emas sym = 0
    · rw [trading_step_eq_of_skip s t sym h1]
    by_cases h2 : t - s.lastTradeTimes sym < COOLDOWN_SEC
    · rw [trading_step_eq_of_cooldown s t sym h2]
    rw [trading_step_body s t sym h1 h2, hd, loop_phase_zero_dev]
    rfl

/-- Witness for C8 at concrete states: a positive EMA of 100, a zero EMA,
and a negative EMA. -/
theorem deviation_percent_witness :
    ((on_message devState 0 101).deviations 0
      = if 0 < (on_message devState 0 101).emas 0
        then ((on_message devState 0 101).prices 0 - (on_message devState 0 101).emas 0)
          / (on_message devState 0 101).emas 0 * 100
        else 0) ∧
    initState.emas 0 = 0 ∧
    trading_step initState 100 0 = initState ∧
    negEmaState.emas 0 < 0 ∧
    (trading_step negEmaState 100 0).totalTrades = negEmaState.totalTrades := by
  refine ⟨(deviation_percent devState 0 101 100).1, ?_,
    (deviation_percent initState 0 101 100).2.1 ?_, ?_,
    (deviation_percent negEmaState 0 101 100).2.2 ?_⟩ <;>
    norm_num [initState, negEmaState, constState]

theorem appendTrimmed_length (logs : List LogEntry) (e : LogEntry)
    (h : logs.length ≤ 10) : (appendTrimmed logs e).length ≤ 10 := by
  unfold appendTrimmed
  split
  · rw [List.length_drop]
    simp only [List.length_append, List.length_singleton]
    omega
  · rename_i hlen
    simp only [List.length_append, List.length_singleton] at *
    omega

theorem appendTrimmed_full (logs : List LogEntry) (e : LogEntry)
    (h : logs.length = 10) : appendTrimmed logs e = logs.tail ++ [e] := by
  unfold appendTrimmed
  rw [if_pos, List.drop_append_of_le_length, List.drop_one]
  · omega
  · simp only [List.length_append, List.length_singleton]
    omega

theorem appendTrimmed_slack (logs : List LogEntry) (e : LogEntry)
    (h : logs.length < 10) : appendTrimmed logs e = logs ++ [e] := by
  unfold appendTrimmed
  rw [if_neg]
  simp only [List.length_append, List.length_singleton]
  omega

/-! ## C9 -/

/-- C9 amended: execute_trade keeps the trade log within ten entries,
evicting the oldest entry when a successful trade's append would overflow
and appending plainly below capacity, and a rejected trade leaves the log
untouched; the unconditional appends elsewhere (coin selection,
initial-funding failure messages, the reset completion message) do not
trim, so those operations can leave more than ten entries. -/
theorem trade_log_bound (s : TraderState) (symbol : Sym) (side : Side) (a : ℚ)
    (h : s.tradeLogs.length ≤ 10) :
    ((execute_trade s symbol side a).tradeLogs.length ≤ 10) ∧
    ((execute_trade s symbol side a).totalTrades = s.totalTrades →
      (execute_trade s symbol side a).tradeLogs = s.tradeLogs) ∧
    (s.tradeLogs.length = 10 →
      (execute_trade s symbol side a).totalTrades = s.totalTrades + 1 →
      (execute_trade s symbol side a).tradeLogs
        = s.tradeLogs.tail ++ [LogEntry.trade symbol side a (a * FEE_PCT)]) ∧
    (s.tradeLogs.length < 10 →
      (execute_trade s symbol side a).totalTrades = s.totalTrades + 1 →
      (execute_trade s symbol side a).tradeLogs
        = s.tradeLogs ++ [LogEntry.trade symbol side a (a * FEE_PCT)]) := by
  have hne1 : ∀ n : Nat, ¬(n = n + 1) := fun n => by omega
  have hne2 : ∀ n : Nat, ¬(n + 1 = n) := fun n => by omega
  unfold execute_trade finishTrade
  cases side <;> dsimp only <;> split
  · exact ⟨h, fun _ => rfl, fun hf h1 => absurd h1 (hne1 _),
      fun hf h1 => absurd h1 (hne1 _)⟩
  · split
    · exact ⟨h, fun _ => rfl, fun hf h1 => absurd h1 (hne1 _),
        fun hf h1 => absurd h1 (hne1 _)⟩
    · exact ⟨appendTrimmed_length _ _ h, fun h1 => absurd h1 (hne2 _),
        fun hf _ => appendTrimmed_full _ _ hf,
        fun hf _ => appendTrimmed_slack _ _ hf⟩
  · exact ⟨h, fun _ => rfl, fun hf h1 => absurd h1 (hne1 _),
      fun hf h1 => absurd h1 (hne1 _)⟩
  · split
    · exact ⟨h, fun _ => rfl, fun hf h1 => absurd h1 (hne1 _),
        fun hf h1 => absurd h1 (hne1 _)⟩
    · exact ⟨appendTrimmed_length _ _ h, fun h1 => absurd h1 (hne2 _),
        fun hf _ => appendTrimmed_full _ _ hf,
        fun hf _ => appendTrimmed_slack _ _ hf⟩

/-- C9 counterexample: initial_buys appends its failure message without
trimming, so a full ten-entry log grows to eleven entries. -/
theorem trade_log_overflow :
    fullLogNoPriceState.tradeLogs.length = 10 ∧
    (initial_buys [0] fullLogNoPriceState (fun _ => 0)).tradeLogs.length = 11 := by
  constructor
  · norm_num [fullLogNoPriceState, constState]
  · norm_num [initial_buys, initial_buy_one, fullLogNoPriceState, constState,
      INITIAL_BUY_USD]

/-- Witness for C9: a successful buy with the log exactly at capacity
evicts the oldest entry and stays at ten. -/
theorem trade_log_bound_witness :
    fullLogBuyState.tradeLogs.length ≤ 10 ∧
    (execute_trade fullLogBuyState 0 Side.buy 1).tradeLogs.length ≤ 10 ∧
    (execute_trade fullLogBuyState 0 Side.buy 1).tradeLogs
      = fullLogBuyState.tradeLogs.tail
        ++ [LogEntry.trade 0 Side.buy 1 (1 * FEE_PCT)] := by
  have h10 : fullLogBuyState.tradeLogs.length = 10 := by
    norm_num [fullLogBuyState, constState]
  have hsucc : (execute_trade fullLogBuyState 0 Side.buy 1).totalTrades
      = fullLogBuyState.totalTrades + 1 := by
    norm_num [execute_trade, finishTrade, fullLogBuyState, constState, FEE_PCT,
      MAX_ALLOC_PER_COIN]
  exact ⟨le_of_eq h10,
    (trade_log_bound fullLogBuyState 0 Side.buy 1 (le_of_eq h10)).1,
    (trade_log_bound fullLogBuyState 0 Side.buy 1 (le_of_eq h10)).2.2.1 h10 hsucc⟩

theorem loop_buy_phase_cases (u : TraderState) (t : ℚ) (sym : Sym) (d : ℚ) :
    loop_buy_phase u t sym d = u ∨
      loop_buy_phase u t sym d
        = stampLastTrade (execute_trade u sym Side.buy TRADE_AMOUNT_USD) sym t := by
  unfold loop_buy_phase
  split
  · exact Or.inr rfl
  · exact Or.inl rfl

theorem loop_sell_phase_cases (u : TraderState) (t : ℚ) (sym : Sym) (d p : ℚ) :
    loop_sell_phase u t sym d p = u ∨
      loop_sell_phase u t sym d p
        = stampLastTrade (execute_trade u sym Side.sell TRADE_AMOUNT_USD) sym t := by
  unfold loop_sell_phase
  split
  · exact Or.inr rfl
  · exact Or.inl rfl

theorem stampLastTrade_self (u : TraderState) (sym : Sym) (t : ℚ) :
    (stampLastTrade u sym t).lastTradeTimes sym = t := by
  unfold stampLastTrade
  exact Function.update_same sym t u.lastTradeTimes

theorem trading_step_gate (s : TraderState) (t : ℚ) (sym : Sym)
    (h : (trading_step s t sym).totalTrades ≠ s.totalTrades) :
    COOLDOWN_SEC ≤ t - s.lastTradeTimes sym := by
  by_contra hlt
  push_neg at hlt
  rw [trading_step_eq_of_cooldown s t sym hlt] at h
  exact h rfl

theorem phases_stamp (u : TraderState) (t : ℚ) (sym : Sym) (d p : ℚ)
    (h : (loop_sell_phase (loop_buy_phase u t sym d) t sym d p).totalTrades
        ≠ u.totalTrades) :
    (loop_sell_phase (loop_buy_phase u t sym d) t sym d p).lastTradeTimes sym
      = t := by
  rcases loop_sell_phase_cases (loop_buy_phase u t sym d) t sym d p with hs | hs
  · rw [hs] at h ⊢
    rcases loop_buy_phase_cases u t sym d with hb | hb
    · rw [hb] at h
      exact absurd rfl h
    · rw [hb]
      exact stampLastTrade_self _ sym t
  · rw [hs]
    exact stampLastTrade_self _ sym t

theorem trading_step_stamp (s : TraderState) (t : ℚ) (sym : Sym)
    (h : (trading_step s t sym).totalTrades ≠ s.totalTrades) :
    (trading_step s t sym).lastTradeTimes sym = t := by
  by_cases h1 : s.prices sym = 0 ∨ s.emas sym = 0
  · rw [trading_step_eq_of_skip s t sym h1] at h
    exact absurd rfl h
  by_cases h2 : t - s.lastTradeTimes sym < COOLDOWN_SEC
  · rw [trading_step_eq_of_cooldown s t sym h2] at h
    exact absurd rfl h
  rw [trading_step_body s t sym h1 h2] at h ⊢
  exact phases_stamp _ t sym _ _ h

theorem trading_step_lastTrade_cases (s : TraderState) (t : ℚ) (sym : Sym) :
    (trading_step s t sym).lastTradeTimes sym = s.lastTradeTimes sym ∨
      (trading_step s t sym).lastTradeTimes sym = t := by
  by_cases h1 : s.prices sym = 0 ∨ s.emas sym = 0
  · rw [trading_step_eq_of_skip s t sym h1]
    exact Or.inl rfl
  by_cases h2 : t - s.lastTradeTimes sym < COOLDOWN_SEC
  · rw [trading_step_eq_of_cooldown s t sym h2]
    exact Or.inl rfl
  rw [trading_step_body s t sym h1 h2]
  rcases loop_sell_phase_cases (loop_buy_phase _ t sym _) t sym _ (s.prices sym)
    with hs | hs
  · rw [hs]
    rcases loop_buy_phase_cases _ t sym _ with hb | hb
    · rw [hb]
      exact Or.inl rfl
    · rw [hb]
      exact Or.inr (stampLastTrade_self _ sym t)
  · rw [hs]
    exact Or.inr (stampLastTrade_self _ sym t)

theorem runSteps_lastTrade_lb (sym : Sym) (t0 : ℚ) :
    ∀ (ts : List ℚ) (s : TraderState),
      t0 ≤ s.lastTradeTimes sym → (∀ x ∈ ts, t0 ≤ x) →
      t0 ≤ (runSteps s sym ts).lastTradeTimes sym := by
  intro ts
  induction ts with
  | nil => intro s hs _; exact hs
  | cons c cs ih =>
      intro s hs hts
      have hstep : runSteps s sym (c :: cs)
          = runSteps (trading_step s c sym) sym cs := rfl
      rw [hstep]
      refine ih (trading_step s c sym) ?_
        (fun x hx => hts x (List.mem_cons_of_mem _ hx))
      rcases trading_step_lastTrade_cases s c sym with h | h
      · rw [h]; exact hs
      · rw [h]; exact hts c (List.mem_cons_self c cs)

/-! ## C3 -/

/-- C3 counterexample: at a state whose deviation passes the loop's buy
guard with cash exactly 1 (at least TRADE_AMOUNT_USD but below amount plus
fee), the loop stamps the cooldown timer with the current time even though
execute_trade rejects the buy and no trade executes: the timer is stamped
on attempts, not exactly on successful trade execution. -/
theorem cooldown_stamp_without_trade :
    (trading_step rejectedBuyState 100 0).lastTradeTimes 0 = 100 ∧
    rejectedBuyState.lastTradeTimes 0 = 0 ∧
    (trading_step rejectedBuyState 100 0).totalTrades
      = rejectedBuyState.totalTrades ∧
    (trading_step rejectedBuyState 100 0).usdt = rejectedBuyState.usdt ∧
    (trading_step rejectedBuyState 100 0).balances 0
      = rejectedBuyState.balances 0 := by
  refine ⟨?_, rfl, ?_, ?_, ?_⟩ <;>
    norm_num [trading_step, loopDeviation, writeDeviation, loop_buy_phase,
      loop_sell_phase, sell_threshold,
      stampLastTrade, execute_trade, finishTrade, rejectedBuyState, constState,
      Function.update_same, COOLDOWN_SEC, THRESHOLD_PCT_BUY,
      THRESHOLD_TOLERANCE, THRESHOLD_PCT_SELL_BASE, THRESHOLD_PCT_SELL_HIGH,
      TRADE_AMOUNT_USD, MAX_ALLOC_PER_COIN, FEE_PCT, PROFIT_HIGH_MARK]

/-- C3 amended: along any run of decision-loop iterations on one instrument
with no reset or funding in between, if the iteration at time t1 executes a
trade and a later iteration at time t2 (after intermediate iterations at
times no earlier than t1) also executes a trade, then t2 is at least the
cooldown interval after t1; the cooldown timer is stamped on every
dispatched attempt, so successful trades are in particular separated. -/
theorem cooldown_separation (s : TraderState) (sym : Sym) (u v : List ℚ)
    (t₁ t₂ : ℚ) (hv : ∀ x ∈ v, t₁ ≤ x)
    (h1 : (trading_step (runSteps s sym u) t₁ sym).totalTrades
        ≠ (runSteps s sym u).totalTrades)
    (h2 : (trading_step (runSteps s sym (u ++ t₁ :: v)) t₂ sym).totalTrades
        ≠ (runSteps s sym (u ++ t₁ :: v)).totalTrades) :
    COOLDOWN_SEC ≤ t₂ - t₁ := by
  have hsplit : runSteps s sym (u ++ t₁ :: v)
      = runSteps (trading_step (runSteps s sym u) t₁ sym) sym v := by
    unfold runSteps
    rw [List.foldl_append]
    rfl
  have hstamp := trading_step_stamp (runSteps s sym u) t₁ sym h1
  have hlb : t₁ ≤ (runSteps (trading_step (runSteps s sym u) t₁ sym) sym v).lastTradeTimes sym :=
    runSteps_lastTrade_lb sym t₁ v _ (le_of_eq hstamp.symm) hv
  have hgate := trading_step_gate (runSteps s sym (u ++ t₁ :: v)) t₂ sym h2
  rw [hsplit] at hgate
  linarith

/-- Witness for C3: two loop iterations at times 100 and 105, both
executing a buy, exactly the cooldown apart. -/
theorem cooldown_separation_witness :
    (∀ x ∈ ([] : List ℚ), (100 : ℚ) ≤ x) ∧
    ((trading_step (runSteps loopBuyState 0 []) 100 0).totalTrades
      ≠ (runSteps loopBuyState 0 []).totalTrades) ∧
    ((trading_step (runSteps loopBuyState 0 ([] ++ 100 :: [])) 105 0).totalTrades
      ≠ (runSteps loopBuyState 0 ([] ++ 100 :: [])).totalTrades) ∧
    COOLDOWN_SEC ≤ 105 - 100 := by
  have hv : ∀ x ∈ ([] : List ℚ), (100 : ℚ) ≤ x := by simp
  have h1 : (trading_step (runSteps loopBuyState 0 []) 100 0).totalTrades
      ≠ (runSteps loopBuyState 0 []).totalTrades := by
    norm_num [runSteps, trading_step, loopDeviation, writeDeviation,
      loop_buy_phase, loop_sell_phase,
      sell_threshold, stampLastTrade, execute_trade, finishTrade, loopBuyState,
      constState, Function.update_same, COOLDOWN_SEC, THRESHOLD_PCT_BUY,
      THRESHOLD_TOLERANCE, THRESHOLD_PCT_SELL_BASE, THRESHOLD_PCT_SELL_HIGH,
      TRADE_AMOUNT_USD, MAX_ALLOC_PER_COIN, FEE_PCT, PROFIT_HIGH_MARK]
  have h2 : (trading_step (runSteps loopBuyState 0 ([] ++ 100 :: [])) 105 0).totalTrades
      ≠ (runSteps loopBuyState 0 ([] ++ 100 :: [])).totalTrades := by
    norm_num [runSteps, trading_step, loopDeviation, writeDeviation,
      loop_buy_phase, loop_sell_phase,
      sell_threshold, stampLastTrade, execute_trade, finishTrade, loopBuyState,
      constState, Function.update_same, Function.update_apply, COOLDOWN_SEC,
      THRESHOLD_PCT_BUY, THRESHOLD_TOLERANCE, THRESHOLD_PCT_SELL_BASE,
      THRESHOLD_PCT_SELL_HIGH, TRADE_AMOUNT_USD, MAX_ALLOC_PER_COIN, FEE_PCT,
      PROFIT_HIGH_MARK]
  exact ⟨hv, h1, h2, cooldown_separation loopBuyState 0 [] [] 100 105 hv h1 h2⟩

theorem execute_trade_inv (s : TraderState) (symbol : Sym) (side : Side)
    (a : ℚ) (ha : 0 < a) (h : LedgerInv s) :
    LedgerInv (execute_trade s symbol side a) := by
  intro y
  unfold execute_trade finishTrade
  cases side <;> dsimp only <;> split
  · exact h y
  · split
    · exact h y
    · rename_i hp hc
      dsimp only
      by_cases hy : y = symbol
      · subst hy
        rw [Function.update_same, Function.update_same]
        refine ⟨(h y).1, ?_, ?_⟩
        · have := (h y).2.1
          linarith
        · intro h0
          exfalso
          have := (h y).2.1
          linarith
      · rw [Function.update_noteq hy, Function.update_noteq hy]
        exact h y
  · exact h y
  · split
    · exact h y
    · rename_i hp hc
      dsimp only
      by_cases hy : y = symbol
      · subst hy
        refine ⟨(h y).1, (h y).2.1, ?_⟩
        intro h0
        exfalso
        have hb0 := ((h y).2.2 h0).2
        have hppos : 0 < s.prices y := lt_of_le_of_ne (h y).1 (Ne.symm hp)
        have hq : 0 < a / s.prices y := div_pos ha hppos
        rw [hb0] at hc
        exact hc hq
      · rw [Function.update_noteq hy, Function.update_noteq hy]
        exact h y

theorem loop_buy_phase_inv (u : TraderState) (t : ℚ) (symbol : Sym) (d : ℚ)
    (h : LedgerInv u) : LedgerInv (loop_buy_phase u t symbol d) := by
  unfold loop_buy_phase
  split
  · exact execute_trade_inv u symbol Side.buy TRADE_AMOUNT_USD
      (by norm_num [TRADE_AMOUNT_USD]) h
  · exact h

theorem loop_sell_phase_inv (u : TraderState) (t : ℚ) (symbol : Sym) (d p : ℚ)
    (h : LedgerInv u) : LedgerInv (loop_sell_phase u t symbol d p) := by
  unfold loop_sell_phase
  split
  · exact execute_trade_inv u symbol Side.sell TRADE_AMOUNT_USD
      (by norm_num [TRADE_AMOUNT_USD]) h
  · exact h

theorem trading_step_inv (s : TraderState) (t : ℚ) (sym : Sym)
    (h : LedgerInv s) : LedgerInv (trading_step s t sym) := by
  by_cases h1 : s.prices sym = 0 ∨ s.emas sym = 0
  · rw [trading_step_eq_of_skip s t sym h1]
    exact h
  by_cases h2 : t - s.lastTradeTimes sym < COOLDOWN_SEC
  · rw [trading_step_eq_of_cooldown s t sym h2]
    exact h
  rw [trading_step_body s t sym h1 h2]
  exact loop_sell_phase_inv _ t sym _ _ (loop_buy_phase_inv _ t sym _ h)

theorem foldl_inv (f : TraderState → Sym → TraderState)
    (hf : ∀ st sym, LedgerInv st → LedgerInv (f st sym)) :
    ∀ (l : List Sym) (s : TraderState), LedgerInv s → LedgerInv (l.foldl f s) := by
  intro l
  induction l with
  | nil => intro s h; exact h
  | cons c cs ih => intro s h; exact ih (f s c) (hf s c h)

theorem trading_tick_inv (coins : List Sym) (s : TraderState) (t : ℚ)
    (h : LedgerInv s) : LedgerInv (trading_tick coins s t) :=
  foldl_inv _ (fun st sym hst => trading_step_inv st t sym hst) coins s h

theorem initial_buy_one_inv (s : TraderState) (t : ℚ) (symbol : Sym)
    (h : LedgerInv s) : LedgerInv (initial_buy_one s t symbol) := by
  unfold initial_buy_one
  split
  · exact execute_trade_inv s symbol Side.buy INITIAL_BUY_USD
      (by norm_num [INITIAL_BUY_USD]) h
  · exact h

theorem initial_buys_inv (coins : List Sym) (s : TraderState) (tf : Sym → ℚ)
    (h : LedgerInv s) : LedgerInv (initial_buys coins s tf) :=
  foldl_inv _ (fun st sym hst => initial_buy_one_inv st (tf sym) sym hst) coins s h

theorem on_message_inv (s : TraderState) (symbol : Sym) (p : ℚ) (hp : 0 ≤ p)
    (h : LedgerInv s) : LedgerInv (on_message s symbol p) := by
  intro y
  unfold on_message
  dsimp only
  by_cases hy : y = symbol
  · subst hy
    rw [Function.update_same]
    exact ⟨hp, (h y).2.1, (h y).2.2⟩
  · rw [Function.update_noteq hy]
    exact h y

theorem reset_zero_inv (coins : List Sym) (s : TraderState) (h : LedgerInv s) :
    LedgerInv (reset_zero coins s) := by
  intro y
  unfold reset_zero
  dsimp only
  refine ⟨(h y).1, ?_, ?_⟩
  · show 0 ≤ zeroOnCoins s.invested coins y
    rw [zeroOnCoins_apply]
    split
    · exact le_refl 0
    · exact (h y).2.1
  · intro h0
    by_cases hmem : y ∈ coins
    · constructor
      · show zeroOnCoins s.coinProfits coins y = 0
        rw [zeroOnCoins_apply, if_pos hmem]
      · rfl
    · have h0i : s.invested y = 0 := by
        have : zeroOnCoins s.invested coins y = s.invested y := by
          rw [zeroOnCoins_apply, if_neg hmem]
        rw [← this]
        exact h0
      constructor
      · show zeroOnCoins s.coinProfits coins y = 0
        rw [zeroOnCoins_apply, if_neg hmem]
        exact ((h y).2.2 h0i).1
      · rfl

theorem reset_simulation_inv (coins : List Sym) (s : TraderState)
    (tf : Sym → ℚ) (h : LedgerInv s) :
    LedgerInv (reset_simulation coins s tf) := by
  unfold reset_simulation
  dsimp only
  exact initial_buys_inv coins _ tf (reset_zero_inv coins s h)

theorem initState_inv : LedgerInv initState :=
  fun _ => ⟨le_refl 0, le_refl 0, fun _ => ⟨rfl, rfl⟩⟩

theorem reachable_inv (coins : List Sym) (s : TraderState)
    (h : Reachable coins s) : LedgerInv s := by
  induction h with
  | refl => exact initState_inv
  | tail hab hbc ih =>
      cases hbc with
      | tick sym p hp => exact on_message_inv _ sym p (le_of_lt hp) ih
      | loop t => exact trading_tick_inv coins _ t ih
      | funding tf => exact initial_buys_inv coins _ tf ih
      | reset tf => exact reset_simulation_inv coins _ tf ih

/-! ## C6 -/

/-- C6: at every reachable state of the program, the trading loop's dynamic
sell threshold equals the specification's rule: the high threshold exactly
when realized profit exceeds invested capital times PROFIT_HIGH_MARK, the
base threshold otherwise. -/
theorem sell_threshold_selection (coins : List Sym) (s : TraderState)
    (sym : Sym) (h : Reachable coins s) :
    sell_threshold s sym = sell_threshold_spec s sym := by
  have hinv := reachable_inv coins s h sym
  unfold sell_threshold sell_threshold_spec
  rcases lt_or_eq_of_le hinv.2.1 with hpos | hzero
  · by_cases hc : s.coinProfits sym > s.invested sym * PROFIT_HIGH_MARK
    · rw [if_pos ⟨hpos, hc⟩, if_pos hc]
    · rw [if_neg fun hcon => hc hcon.2, if_neg hc]
  · have hprof := (hinv.2.2 hzero.symm).1
    have h1 : ¬(s.invested sym > 0 ∧
        s.coinProfits sym > s.invested sym * PROFIT_HIGH_MARK) := by
      rintro ⟨hp, -⟩
      rw [← hzero] at hp
      exact lt_irrefl 0 hp
    have h2 : ¬(s.coinProfits sym > s.invested sym * PROFIT_HIGH_MARK) := by
      rw [hprof, ← hzero]
      norm_num
    rw [if_neg h1, if_neg h2]

/-- Witness for C6 at a reachable state: the initial state after one feed
tick of price 100 for instrument 0. -/
theorem sell_threshold_selection_witness :
    Reachable [0] (on_message initState 0 100) ∧
    sell_threshold (on_message initState 0 100) 0
      = sell_threshold_spec (on_message initState 0 100) 0 :=
  ⟨Relation.ReflTransGen.single (Step.tick initState 0 100 (by norm_num)),
    sell_threshold_selection [0] (on_message initState 0 100) 0
      (Relation.ReflTransGen.single (Step.tick initState 0 100 (by norm_num)))⟩

/-! ## C10 -/

/-- C10: a sell never modifies invested capital, feed ticks never modify it,
the trading loop and initial funding never decrease it, and a buy either
leaves it unchanged or raises it by exactly the trade amount while staying
within the per-coin allocation cap. -/
theorem invested_frame_and_monotone (coins : List Sym) (s : TraderState)
    (symbol y : Sym) (a t p : ℚ) (tf : Sym → ℚ) :
    (execute_trade s symbol Side.sell a).invested y = s.invested y ∧
    (on_message s symbol p).invested y = s.invested y ∧
    s.invested y ≤ (trading_tick coins s t).invested y ∧
    s.invested y ≤ (initial_buys coins s tf).invested y ∧
    ((execute_trade s symbol Side.buy a).invested symbol = s.invested symbol ∨
      ((execute_trade s symbol Side.buy a).invested symbol
          = s.invested symbol + a ∧
        s.invested symbol + a ≤ MAX_ALLOC_PER_COIN)) := by
  refine ⟨?_, rfl, ?_, ?_, ?_⟩
  · unfold execute_trade finishTrade
    dsimp only
    split
    · rfl
    · split
      · rfl
      · rfl
  · exact foldl_invested_mono _ (fun st sym z => trading_step_invested_mono st t sym z)
      coins s y
  · unfold initial_buys
    exact foldl_invested_mono _ (fun st sym z => initial_buy_one_invested_mono st (tf sym) sym z)
      coins s y
  · unfold execute_trade finishTrade
    dsimp only
    split
    · exact Or.inl rfl
    · split
      · exact Or.inl rfl
      · rename_i hprice hcond
        rw [not_or] at hcond
        push_neg at hcond
        refine Or.inr ⟨?_, hcond.1⟩
        simp [Function.update_same]

end MemeTrader
